import Mathlib

/-!
Verification development for the robot-warehouse task service.

The Go sources are shallowly embedded: Go strings that carry command
sequences become `List Char` (so that the character-level splitting of
`strings.Split` on the space character and `strings.TrimSpace` can be reasoned about),
`uint` coordinates become `Nat`, `int` displacements become `Int`, Go maps
become association lists, fallible Go functions return `Except String`,
and the task-id channel and the event channel become explicit bounded
buffers (`List` plus a capacity).  Concurrent cancellation is modelled by
an oracle `cancel : Nat → Bool` passed to the execution loop: `cancel i`
states that a concurrent `CancelTask` call landed before the loop's i-th
re-read of the task state.
-/

namespace RobotChallenge

/-- Embeds `RobotCommand` (command.go): the four directional primitives. -/
inductive RobotCommand where
  | North
  | West
  | East
  | South
deriving DecidableEq

/-- Embeds `RobotCommand.String` (command.go): the single-letter textual form. -/
def cmdLetter : RobotCommand → Char
  | .North => 'N'
  | .West => 'W'
  | .East => 'E'
  | .South => 'S'

/-- The textual form of a command as a one-character token. -/
def cmdToken (c : RobotCommand) : List Char := [cmdLetter c]

/-- Embeds `TaskState` (task.go). -/
inductive TaskState where
  | Pending
  | InProgress
  | Aborted
  | RequestCancellation
  | Canceled
  | Completed
  | Invalid
deriving DecidableEq

/-- Embeds `TaskState.String` (task.go). -/
def TaskState.toText : TaskState → String
  | .Pending => "Pending"
  | .InProgress => "InProgress"
  | .Aborted => "Aborted"
  | .RequestCancellation => "RequestCancellation"
  | .Canceled => "Canceled"
  | .Completed => "Completed"
  | .Invalid => "Invalid"

/-- Embeds `RobotState` (state.go): the robot's coordinates (Go `uint`). -/
structure RobotState where
  x : Nat
  y : Nat
deriving DecidableEq

/-- Embeds the constant `warehouseSize = 10` (service.go). -/
def warehouseSize : Nat := 10

/-- Embeds `RobotTask` (task.go).  `DelayBetweenCommands` is a Go
`time.Duration`, an `int64` number of nanoseconds. -/
structure RobotTask where
  id : String
  commands : List RobotCommand
  state : TaskState
  delayBetweenCommands : Int
  sequenceNum : Int
  error : String
  deltaX : Int
  deltaY : Int
deriving DecidableEq

/-- Embeds `defaultDelayBetweenCommands = CommandDuration(time.Second)`
(task.go), in nanoseconds. -/
def defaultDelayBetweenCommands : Int := 1000000000

/-- Whitespace in the sense of Go's `unicode.IsSpace`, restricted to the
ASCII space characters (space, tab, newline, vertical tab, form feed,
carriage return); no input in this development uses the non-ASCII ones. -/
def isSpaceChar (c : Char) : Bool :=
  c = ' ' || c = '\t' || c = '\n' || c = '\x0b' || c = '\x0c' || c = '\r'

/-- Embeds the `strings.Split` call of `parseCommands`: splits on
every occurrence of the single character `' '`, keeping empty chunks. -/
def splitOnSpaceChars : List Char → List (List Char)
  | [] => [[]]
  | c :: rest =>
    match splitOnSpaceChars rest with
    | [] => [[c]]
    | t :: ts => if c = ' ' then [] :: t :: ts else (c :: t) :: ts

/-- Drops trailing whitespace; the recursive form of the right half of
Go's `strings.TrimSpace`. -/
def trimRightWS : List Char → List Char
  | [] => []
  | c :: rest =>
    match trimRightWS rest with
    | [] => if isSpaceChar c then [] else [c]
    | r => c :: r

/-- Embeds `strings.TrimSpace` (used by `removeEmptyStrings`). -/
def trimSpace (s : List Char) : List Char :=
  trimRightWS (s.dropWhile isSpaceChar)

/-- Embeds `removeEmptyStrings` (task.go): keeps only the chunks whose
`TrimSpace` is nonempty. -/
def removeEmptyStrings (slice : List (List Char)) : List (List Char) :=
  slice.filter (fun s => trimSpace s != [])

/-- Embeds the parsing loop of `parseCommands` (task.go): each part must
be exactly one of the four single uppercase letters; the matching branch
appends the command and adjusts the running displacement, any other part
aborts the whole parse. -/
def parseLoop : List (List Char) → List RobotCommand → Int → Int →
    Except String (List RobotCommand × Int × Int)
  | [], cmds, dx, dy => .ok (cmds, dx, dy)
  | p :: rest, cmds, dx, dy =>
    if p = ['N'] then parseLoop rest (cmds ++ [.North]) dx (dy + 1)
    else if p = ['W'] then parseLoop rest (cmds ++ [.West]) (dx - 1) dy
    else if p = ['E'] then parseLoop rest (cmds ++ [.East]) (dx + 1) dy
    else if p = ['S'] then parseLoop rest (cmds ++ [.South]) dx (dy - 1)
    else .error ("invalid command: " ++ String.mk p)

/-- Embeds `parseCommands` (task.go). -/
def parseCommands (raw : List Char) : Except String (List RobotCommand × Int × Int) :=
  let parts := removeEmptyStrings (splitOnSpaceChars raw)
  if parts.length = 0 then .error "no commands provided"
  else parseLoop parts [] 0 0

/-- Embeds `NewTask` (task.go).  The fresh UUID is passed in as a
parameter (`uuid.New()` draws from an ambient generator); the delay
argument is specialized to the empty delay string, for which the Go code
uses the one-second default. -/
def NewTask (fresh : String) (rawCmdSequence : List Char) : Except String RobotTask :=
  match parseCommands rawCmdSequence with
  | .error e => .error e
  | .ok (cmds, dx, dy) =>
    .ok { id := fresh, commands := cmds, state := .Pending,
          delayBetweenCommands := defaultDelayBetweenCommands,
          sequenceNum := 0, error := "", deltaX := dx, deltaY := dy }

/-- Embeds `RobotCommands.String` (task.go): write each command's letter
followed by a space, then strip the trailing spaces with `strings.TrimRight`. -/
def trimRightSpaces : List Char → List Char
  | [] => []
  | c :: rest =>
    match trimRightSpaces rest with
    | [] => if c = ' ' then [] else [c]
    | r => c :: r

/-- Embeds `RobotCommands.String` (task.go). -/
def RobotCommandsString (rc : List RobotCommand) : List Char :=
  trimRightSpaces (rc.flatMap (fun c => [cmdLetter c, ' ']))

/-- Embeds `ServiceState` (state.go).  The revision of the struct used by
the current service adds the `CurTaskCount` field (its uses appear in
service.go and the tests); the Go map of tasks becomes an association
list. -/
structure ServiceState where
  robotState : RobotState
  tasks : List (String × RobotTask)
  curTaskCount : Int
deriving DecidableEq

/-- Embeds `NewServiceState` (state.go): robot at the origin, no tasks. -/
def NewServiceState : ServiceState :=
  { robotState := { x := 0, y := 0 }, tasks := [], curTaskCount := 0 }

/-- Go map lookup `s.state.Tasks[taskID]`. -/
def tasksLookup : List (String × RobotTask) → String → Option RobotTask
  | [], _ => none
  | (k, v) :: rest, key => if k = key then some v else tasksLookup rest key

/-- Go map store `s.state.Tasks[taskID] = task`. -/
def tasksUpdate : List (String × RobotTask) → String → RobotTask →
    List (String × RobotTask)
  | [], key, task => [(key, task)]
  | (k, v) :: rest, key, task =>
    if k = key then (key, task) :: rest else (k, v) :: tasksUpdate rest key task

/-- Embeds `GetRobotState` (service.go). -/
def GetRobotState (st : ServiceState) : RobotState := st.robotState

/-- Embeds `SetRobotState` (service.go). -/
def SetRobotState (st : ServiceState) (r : RobotState) : ServiceState :=
  { st with robotState := r }

/-- Embeds `GetTaskState` (service.go): the state of a registered task,
or an error (the Go version also returns the `Invalid` sentinel). -/
def GetTaskState (st : ServiceState) (taskID : String) : Except String TaskState :=
  match tasksLookup st.tasks taskID with
  | some task => .ok task.state
  | none => .error ("task with ID " ++ taskID ++ " not found")

/-- Embeds `UpdateTaskState` (service.go): a missing id leaves the state
unchanged (the Go code only logs). -/
def UpdateTaskState (st : ServiceState) (taskID : String) (s : TaskState) : ServiceState :=
  match tasksLookup st.tasks taskID with
  | some task => { st with tasks := tasksUpdate st.tasks taskID { task with state := s } }
  | none => st

/-- Embeds `UpdateTaskError` (service.go). -/
def UpdateTaskError (st : ServiceState) (taskID : String) (errMsg : String) : ServiceState :=
  match tasksLookup st.tasks taskID with
  | some task => { st with tasks := tasksUpdate st.tasks taskID { task with error := errMsg } }
  | none => st

/-- Embeds `ExecuteRobotCommand` (service.go): one step with the per-step
boundary check; on success the moved state is stored, on failure the
position is untouched. -/
def ExecuteRobotCommand (r : RobotState) (cmd : RobotCommand) : Except String RobotState :=
  match cmd with
  | .North =>
    if r.y ≥ warehouseSize then .error "robot cannot move north, out of warehouse boundaries"
    else .ok { r with y := r.y + 1 }
  | .South =>
    if r.y = 0 then .error "robot cannot move south, out of warehouse boundaries"
    else .ok { r with y := r.y - 1 }
  | .East =>
    if r.x ≥ warehouseSize then .error "robot cannot move east, out of warehouse boundaries"
    else .ok { r with x := r.x + 1 }
  | .West =>
    if r.x = 0 then .error "robot cannot move west, out of warehouse boundaries"
    else .ok { r with x := r.x - 1 }

/-- Embeds `IsTaskValid` (service.go): the current position plus the
task's precomputed net displacement, rejected when a coordinate is
negative or reaches `warehouseSize`. -/
def IsTaskValid (st : ServiceState) (task : RobotTask) : Bool :=
  let destinationX : Int := ((GetRobotState st).x : Int) + task.deltaX
  let destinationY : Int := ((GetRobotState st).y : Int) + task.deltaY
  if destinationX < 0 ∨ destinationX ≥ (warehouseSize : Int) ∨
     destinationY < 0 ∨ destinationY ≥ (warehouseSize : Int) then false
  else true

/-- Embeds `CancelTask` (service.go): not-found error for an unknown id,
`InProgress → RequestCancellation`, `Pending → Canceled` with a reason
message, and an invalid-transition error naming the state otherwise. -/
def CancelTask (st : ServiceState) (taskID : String) : ServiceState × Except String Unit :=
  match tasksLookup st.tasks taskID with
  | none => (st, .error ("task with ID " ++ taskID ++ " not found"))
  | some task =>
    match task.state with
    | .InProgress =>
      let task := { task with state := TaskState.RequestCancellation }
      ({ st with tasks := tasksUpdate st.tasks taskID task }, .ok ())
    | .Pending =>
      let task := { task with error := "Pending Task cancelled by user",
                              state := TaskState.Canceled }
      ({ st with tasks := tasksUpdate st.tasks taskID task }, .ok ())
    | _ =>
      (st, .error ("task " ++ taskID ++ " is \x27" ++ task.state.toText ++
        "\x27 state and cannot be cancelled"))

/-- A concurrent `CancelTask` performed by the environment between two
loop iterations; only its state effect matters to the worker. -/
def applyCancelRequest (st : ServiceState) (taskID : String) : ServiceState :=
  (CancelTask st taskID).1

/-- Embeds the command loop of `ExecuteTask` (service.go).  `cancel i`
says whether a concurrent cancellation request landed before the i-th
re-read of the task's state; the loop then observes it on the re-read,
attaches the cancellation error and stops. -/
def execLoop (st : ServiceState) (taskID : String) (cancel : Nat → Bool) :
    List RobotCommand → Nat → ServiceState × Except String Unit
  | [], _ => (UpdateTaskState st taskID .Completed, .ok ())
  | cmd :: rest, i =>
    let st := if cancel i then applyCancelRequest st taskID else st
    match GetTaskState st taskID with
    | .error e => (st, .error ("Error getting task state for " ++ taskID ++ ": " ++ e))
    | .ok s =>
      if s = .RequestCancellation then
        let st := UpdateTaskError st taskID "Task cancellation requested by user"
        (UpdateTaskState st taskID .Canceled, .ok ())
      else
        match ExecuteRobotCommand (GetRobotState st) cmd with
        | .error e =>
          let st := UpdateTaskError st taskID
            ("Error executing command \x27" ++ String.mk (cmdToken cmd) ++ "\x27: " ++ e)
          (UpdateTaskState st taskID .Aborted,
           .error ("Error executing command \x27" ++ String.mk (cmdToken cmd) ++
             "\x27 for task " ++ taskID ++ ": " ++ e))
        | .ok r => execLoop (SetRobotState st r) taskID cancel rest (i + 1)

/-- Embeds `ExecuteTask` (service.go): look the task up, require
`Pending`, move it to `InProgress`, run the up-front feasibility check,
then execute the commands one at a time. -/
def ExecuteTask (st : ServiceState) (taskId : String) (cancel : Nat → Bool) :
    ServiceState × Except String Unit :=
  match tasksLookup st.tasks taskId with
  | none => (st, .error ("Task " ++ taskId ++ " not found in service state"))
  | some task =>
    if task.state ≠ .Pending then
      (st, .error ("Task " ++ task.id ++ " is not in Pending state, current state: " ++
        task.state.toText))
    else
      let st := UpdateTaskState st task.id .InProgress
      if IsTaskValid st task = false then
        let st := UpdateTaskState st task.id .Aborted
        let st := UpdateTaskError st task.id
          "Task is invalid: out of warehouse boundaries, marking as Aborted"
        (st, .error ("Task " ++ task.id ++ " is invalid and cannot be processed"))
      else
        execLoop st task.id cancel task.commands 0

/-- Embeds `TaskStatusUpdateEvent` (service.go); the timestamp is the
`time.Now()` value in nanoseconds, supplied by the caller's clock. -/
structure TaskStatusUpdateEvent where
  taskID : String
  state : TaskState
  error : String
  timestamp : Int
deriving DecidableEq

/-- The event channel created by `NewService` with
`make(chan TaskStatusUpdateEvent, 100)`: a bounded buffer. -/
structure EventChannel where
  capacity : Nat
  buffer : List TaskStatusUpdateEvent
deriving DecidableEq

/-- The event-channel capacity fixed in `NewService` (service.go). -/
def eventChannelCapacity : Nat := 100

/-- Embeds `publishEvent` (service.go): a non-blocking send — the event
is appended when the buffer has free space and dropped otherwise. -/
def publishEvent (ch : EventChannel) (taskID : String) (state : TaskState)
    (errorMsg : String) (now : Int) : EventChannel :=
  let event : TaskStatusUpdateEvent :=
    { taskID := taskID, state := state, error := errorMsg, timestamp := now }
  if ch.buffer.length < ch.capacity then { ch with buffer := ch.buffer ++ [event] }
  else ch

/-- The service as seen by `EnqueueTask`: the shared state plus the
bounded task-id channel (its capacity is fixed when the channel is made
in main.go). -/
structure Service where
  state : ServiceState
  queueCapacity : Nat
  queue : List String
deriving DecidableEq

/-- The outcome of one `EnqueueTask` call.  A send on a full buffered
channel does not return — `blocked` records the service state already
mutated when the goroutine parks on `s.taskIdQueue <- task.ID`. -/
inductive EnqueueOutcome where
  | parseError (e : String)
  | blocked (st : ServiceState)
  | ok (taskID : String) (s : Service)
deriving DecidableEq

/-- Embeds `EnqueueTask` (service.go): create the task, bump the counter,
assign the sequence number, register the task, then send the id on the
bounded channel — the send blocks when the queue is at capacity, after
the registration has already happened. -/
def EnqueueTask (s : Service) (fresh : String) (commands : List Char) : EnqueueOutcome :=
  match NewTask fresh commands with
  | .error e => .parseError e
  | .ok task =>
    let cnt := s.state.curTaskCount + 1
    let task := { task with sequenceNum := cnt }
    let newTasks := tasksUpdate s.state.tasks task.id task
    let st := { s.state with curTaskCount := cnt, tasks := newTasks }
    if s.queue.length < s.queueCapacity then
      .ok task.id { s with state := st, queue := s.queue ++ [task.id] }
    else
      .blocked st

/-- The unit horizontal displacement of one command (spec §3: `E`:+X,
`W`:-X). -/
def cmdDX : RobotCommand → Int
  | .East => 1
  | .West => -1
  | _ => 0

/-- The unit vertical displacement of one command (spec §3: `N`:+Y,
`S`:-Y). -/
def cmdDY : RobotCommand → Int
  | .North => 1
  | .South => -1
  | _ => 0

/-- Net horizontal displacement: the sum of the unit vectors. -/
def netDX (cs : List RobotCommand) : Int := (cs.map cmdDX).sum

/-- Net vertical displacement: the sum of the unit vectors. -/
def netDY (cs : List RobotCommand) : Int := (cs.map cmdDY).sum

/-- Tokenisation following the specification's grammar wording (spec §6):
tokens are maximal runs of non-whitespace characters, separated by one or
more whitespace characters.  Used only to state claims about the grammar;
the source splits on the space character alone. -/
def specTokensAux (acc : List Char) : List Char → List (List Char)
  | [] => if acc = [] then [] else [acc.reverse]
  | c :: rest =>
    if isSpaceChar c then
      if acc = [] then specTokensAux [] rest else acc.reverse :: specTokensAux [] rest
    else specTokensAux (c :: acc) rest

/-- The whitespace-separated tokens of a raw string, per the spec's
grammar wording. -/
def specTokens (raw : List Char) : List (List Char) := specTokensAux [] raw

end RobotChallenge

namespace RobotChallenge

/-- Stepwise application of a command list through `ExecuteRobotCommand`,
mirroring the position effect of the execution loop. -/
def applyCommands (r : RobotState) : List RobotCommand → Except String RobotState
  | [] => .ok r
  | c :: rest =>
    match ExecuteRobotCommand r c with
    | .error e => .error e
    | .ok r' => applyCommands r' rest

/-- C9: publishing a task-status event never blocks and never fails (the
model is a total function): with free space in the bounded buffer the
event — task id, new state, error text, timestamp — is appended; with a
full buffer the event is dropped and everything, buffer included, is left
unchanged. -/
theorem c9_publish_event_best_effort (ch : EventChannel) (taskID : String)
    (state : TaskState) (errorMsg : String) (now : Int) :
    (ch.buffer.length < ch.capacity →
      publishEvent ch taskID state errorMsg now =
        { ch with buffer := ch.buffer ++ [⟨taskID, state, errorMsg, now⟩] }) ∧
    (¬ ch.buffer.length < ch.capacity →
      publishEvent ch taskID state errorMsg now = ch) := by
  constructor <;> intro h <;> simp [publishEvent, h]

theorem c9_publish_event_best_effort_witness :
    (publishEvent ⟨100, []⟩ "t1" .Pending "" 0 = ⟨100, [⟨"t1", .Pending, "", 0⟩]⟩) ∧
    (publishEvent ⟨0, []⟩ "t1" .Pending "" 0 = ⟨0, []⟩) :=
  ⟨(c9_publish_event_best_effort ⟨100, []⟩ "t1" .Pending "" 0).1 (by decide),
   (c9_publish_event_best_effort ⟨0, []⟩ "t1" .Pending "" 0).2 (by decide)⟩

/-- C7: the initial robot position is (0,0), and from any position within
the `0..warehouseSize` grid, `ExecuteRobotCommand` moves the robot
exactly one unit in the commanded direction when the result stays within
the grid (so the invariant `0 ≤ X ≤ 10 ∧ 0 ≤ Y ≤ 10` is preserved), and
returns an error — producing no new position — when that single step
would leave the grid. -/
theorem c7_step_preserves_grid_invariant (r : RobotState) (cmd : RobotCommand)
    (hx : r.x ≤ warehouseSize) (hy : r.y ≤ warehouseSize) :
    NewServiceState.robotState = ⟨0, 0⟩ ∧
    ((0 ≤ (r.x : Int) + cmdDX cmd ∧ (r.x : Int) + cmdDX cmd ≤ (warehouseSize : Int) ∧
      0 ≤ (r.y : Int) + cmdDY cmd ∧ (r.y : Int) + cmdDY cmd ≤ (warehouseSize : Int)) →
      ∃ r', ExecuteRobotCommand r cmd = .ok r' ∧
        (r'.x : Int) = (r.x : Int) + cmdDX cmd ∧ (r'.y : Int) = (r.y : Int) + cmdDY cmd ∧
        r'.x ≤ warehouseSize ∧ r'.y ≤ warehouseSize) ∧
    (¬ (0 ≤ (r.x : Int) + cmdDX cmd ∧ (r.x : Int) + cmdDX cmd ≤ (warehouseSize : Int) ∧
        0 ≤ (r.y : Int) + cmdDY cmd ∧ (r.y : Int) + cmdDY cmd ≤ (warehouseSize : Int)) →
      ∃ e, ExecuteRobotCommand r cmd = .error e) := by
  refine ⟨rfl, ?_, ?_⟩ <;> intro h <;> cases cmd <;>
    simp only [ExecuteRobotCommand, cmdDX, cmdDY, warehouseSize] at * <;>
    split <;> rename_i hcond
  · omega
  · exact ⟨_, rfl, by push_cast; omega⟩
  · omega
  · exact ⟨_, rfl, by push_cast; omega⟩
  · omega
  · exact ⟨_, rfl, by push_cast; omega⟩
  · omega
  · exact ⟨_, rfl, by push_cast; omega⟩
  · exact ⟨_, rfl⟩
  · omega
  · exact ⟨_, rfl⟩
  · omega
  · exact ⟨_, rfl⟩
  · omega
  · exact ⟨_, rfl⟩
  · omega

theorem c7_step_preserves_grid_invariant_witness :
    (0 : Nat) ≤ warehouseSize ∧
    (∃ r', ExecuteRobotCommand ⟨0, 0⟩ .North = .ok r' ∧
      (r'.x : Int) = ((0 : Nat) : Int) + cmdDX .North ∧
      (r'.y : Int) = ((0 : Nat) : Int) + cmdDY .North ∧
      r'.x ≤ warehouseSize ∧ r'.y ≤ warehouseSize) ∧
    (∃ e, ExecuteRobotCommand ⟨0, 0⟩ .South = .error e) :=
  ⟨by decide,
   (c7_step_preserves_grid_invariant ⟨0, 0⟩ .North (by decide) (by decide)).2.1 (by decide),
   (c7_step_preserves_grid_invariant ⟨0, 0⟩ .South (by decide) (by decide)).2.2 (by decide)⟩

end RobotChallenge

namespace RobotChallenge

/-- A task of ten East commands, with its precomputed net displacement
(10, 0), as `NewTask` would build it. -/
def eastTenTask : RobotTask :=
  { id := "t1", commands := List.replicate 10 .East, state := .Pending,
    delayBetweenCommands := defaultDelayBetweenCommands, sequenceNum := 1,
    error := "", deltaX := 10, deltaY := 0 }

/-- The service state holding `eastTenTask` with the robot at the origin. -/
def eastTenState : ServiceState :=
  { robotState := ⟨0, 0⟩, tasks := [("t1", eastTenTask)], curTaskCount := 1 }

/-- C3: the up-front check is off by one against the 0..10 inclusive grid.
With the robot at (0,0) and a task of ten East commands (net displacement
(10,0)): the destination (10,0) lies inside `[0, warehouseSize]` on both
axes and is even reachable step by step through the per-step boundary
check, yet `IsTaskValid` returns `false` — destination `≥ warehouseSize`
is rejected — so `ExecuteTask` aborts the task up front, attaching the
boundary error and executing no command. -/
theorem c3_up_front_check_rejects_coordinate_ten :
    IsTaskValid eastTenState eastTenTask = false ∧
    (0 ≤ (eastTenState.robotState.x : Int) + eastTenTask.deltaX ∧
     (eastTenState.robotState.x : Int) + eastTenTask.deltaX ≤ (warehouseSize : Int) ∧
     0 ≤ (eastTenState.robotState.y : Int) + eastTenTask.deltaY ∧
     (eastTenState.robotState.y : Int) + eastTenTask.deltaY ≤ (warehouseSize : Int)) ∧
    applyCommands eastTenState.robotState eastTenTask.commands = .ok ⟨10, 0⟩ ∧
    (tasksLookup (ExecuteTask eastTenState "t1" (fun _ => false)).1.tasks "t1").map
      (fun t => (t.state, t.error)) =
      some (.Aborted, "Task is invalid: out of warehouse boundaries, marking as Aborted") ∧
    (ExecuteTask eastTenState "t1" (fun _ => false)).1.robotState = eastTenState.robotState :=
  ⟨by decide, by decide, by rfl, by rfl, by rfl⟩

/-- The not-found error message of `CancelTask`. -/
def cancelNotFoundMsg (taskID : String) : String :=
  "task with ID " ++ taskID ++ " not found"

/-- The invalid-transition error message of `CancelTask`, naming the
task's current state. -/
def cancelInvalidTransitionMsg (taskID : String) (s : TaskState) : String :=
  "task " ++ taskID ++ " is \x27" ++ s.toText ++ "\x27 state and cannot be cancelled"

/-- Looking an id up right after storing a task under it yields that
task. -/
theorem tasksLookup_update_self (m : List (String × RobotTask)) (k : String) (t : RobotTask) :
    tasksLookup (tasksUpdate m k t) k = some t := by
  induction m with
  | nil => simp [tasksUpdate, tasksLookup]
  | cons hd tl ih =>
    obtain ⟨k2, v⟩ := hd
    by_cases hk : k2 = k <;> simp [tasksUpdate, tasksLookup, hk, ih]

/-- C4: `CancelTask` returns a not-found error for an unknown id; moves an
`InProgress` task to `RequestCancellation`; moves a `Pending` task
directly to `Canceled` with the cancellation-reason message attached; in
every other state it returns an invalid-transition error naming the
current state and leaves the whole service state unchanged; and after a
successful cancellation a second `CancelTask` on the same id fails
without mutating anything further. -/
theorem c4_cancel_task_transitions (st : ServiceState) (taskID : String) :
    (tasksLookup st.tasks taskID = none →
      CancelTask st taskID = (st, .error (cancelNotFoundMsg taskID))) ∧
    (∀ task, tasksLookup st.tasks taskID = some task →
      (task.state = .InProgress →
        CancelTask st taskID =
          ({ st with tasks := tasksUpdate st.tasks taskID ({ task with state := TaskState.RequestCancellation }) }, .ok ())) ∧
      (task.state = .Pending →
        CancelTask st taskID =
          ({ st with tasks := tasksUpdate st.tasks taskID ({ task with error := "Pending Task cancelled by user", state := TaskState.Canceled }) }, .ok ())) ∧
      (task.state ≠ .InProgress → task.state ≠ .Pending →
        CancelTask st taskID =
          (st, .error (cancelInvalidTransitionMsg taskID task.state))) ∧
      ((task.state = .InProgress ∨ task.state = .Pending) →
        ∃ st', (CancelTask st taskID).1 = st' ∧ (CancelTask st taskID).2 = .ok () ∧
          ∃ e, CancelTask st' taskID = (st', .error e))) := by
  constructor
  · intro hnone
    simp [CancelTask, hnone, cancelNotFoundMsg]
  · intro task htask
    refine ⟨?_, ?_, ?_, ?_⟩
    · intro hs
      simp [CancelTask, htask, hs]
    · intro hs
      simp [CancelTask, htask, hs]
    · intro h1 h2
      cases hstate : task.state <;>
        simp_all [CancelTask, htask, cancelInvalidTransitionMsg]
    · rintro (hs | hs)
      · refine ⟨_, rfl, by simp [CancelTask, htask, hs], ?_⟩
        refine ⟨cancelInvalidTransitionMsg taskID .RequestCancellation, ?_⟩
        simp [CancelTask, htask, hs, tasksLookup_update_self, cancelInvalidTransitionMsg]
      · refine ⟨_, rfl, by simp [CancelTask, htask, hs], ?_⟩
        refine ⟨cancelInvalidTransitionMsg taskID .Canceled, ?_⟩
        simp [CancelTask, htask, hs, tasksLookup_update_self, cancelInvalidTransitionMsg]

end RobotChallenge

namespace RobotChallenge

/-- A one-command task sitting in lifecycle state `s`. -/
def c4TaskAt (s : TaskState) : RobotTask :=
  { id := "w", commands := [.North], state := s,
    delayBetweenCommands := defaultDelayBetweenCommands,
    sequenceNum := 1, error := "", deltaX := 0, deltaY := 1 }

/-- A service state holding exactly `c4TaskAt s` under the id "w". -/
def c4StateAt (s : TaskState) : ServiceState :=
  { robotState := ⟨0, 0⟩, tasks := [("w", c4TaskAt s)], curTaskCount := 1 }

theorem c4_cancel_task_transitions_witness :
    (CancelTask NewServiceState "w" = (NewServiceState, .error (cancelNotFoundMsg "w"))) ∧
    (CancelTask (c4StateAt .InProgress) "w" =
      ({ c4StateAt .InProgress with tasks := tasksUpdate (c4StateAt .InProgress).tasks "w" ({ c4TaskAt .InProgress with state := TaskState.RequestCancellation }) }, .ok ())) ∧
    (CancelTask (c4StateAt .Pending) "w" =
      ({ c4StateAt .Pending with tasks := tasksUpdate (c4StateAt .Pending).tasks "w" ({ c4TaskAt .Pending with error := "Pending Task cancelled by user", state := TaskState.Canceled }) }, .ok ())) ∧
    (CancelTask (c4StateAt .Completed) "w" =
      (c4StateAt .Completed, .error (cancelInvalidTransitionMsg "w" .Completed))) ∧
    (∃ st', (CancelTask (c4StateAt .InProgress) "w").1 = st' ∧
      (CancelTask (c4StateAt .InProgress) "w").2 = .ok () ∧
      ∃ e, CancelTask st' "w" = (st', .error e)) :=
  ⟨(c4_cancel_task_transitions NewServiceState "w").1 rfl,
   ((c4_cancel_task_transitions (c4StateAt .InProgress) "w").2 _ rfl).1 rfl,
   ((c4_cancel_task_transitions (c4StateAt .Pending) "w").2 _ rfl).2.1 rfl,
   ((c4_cancel_task_transitions (c4StateAt .Completed) "w").2 _ rfl).2.2.1
     (by decide) (by decide),
   ((c4_cancel_task_transitions (c4StateAt .InProgress) "w").2 _ rfl).2.2.2 (Or.inl rfl)⟩

end RobotChallenge

namespace RobotChallenge

/-- When every part is one of the four single-letter tokens, the parsing
loop succeeds, appends the corresponding commands in order, and adds the
net displacement of those commands to the running deltas. -/
theorem parseLoop_ok (parts : List (List Char)) (acc : List RobotCommand) (dx dy : Int)
    (h : ∀ p ∈ parts, p = ['N'] ∨ p = ['E'] ∨ p = ['S'] ∨ p = ['W']) :
    ∃ cs, parseLoop parts acc dx dy = .ok (acc ++ cs, dx + netDX cs, dy + netDY cs) ∧
      cs.map cmdToken = parts := by
  induction parts generalizing acc dx dy with
  | nil => exact ⟨[], by simp [parseLoop, netDX, netDY], rfl⟩
  | cons p rest ih =>
    have hrest : ∀ q ∈ rest, q = ['N'] ∨ q = ['E'] ∨ q = ['S'] ∨ q = ['W'] :=
      fun q hq => h q (List.mem_cons_of_mem p hq)
    rcases h p (List.mem_cons_self p rest) with hp | hp | hp | hp <;> subst hp
    · obtain ⟨cs, hcs, hmap⟩ := ih (acc ++ [RobotCommand.North]) dx (dy + 1) hrest
      refine ⟨RobotCommand.North :: cs, ?_, by simp [hmap, cmdToken, cmdLetter]⟩
      simp [parseLoop, hcs, netDX, netDY, cmdDX, cmdDY, add_assoc]
    · obtain ⟨cs, hcs, hmap⟩ := ih (acc ++ [RobotCommand.East]) (dx + 1) dy hrest
      refine ⟨RobotCommand.East :: cs, ?_, by simp [hmap, cmdToken, cmdLetter]⟩
      simp [parseLoop, hcs, netDX, netDY, cmdDX, cmdDY, add_assoc]
    · obtain ⟨cs, hcs, hmap⟩ := ih (acc ++ [RobotCommand.South]) dx (dy - 1) hrest
      refine ⟨RobotCommand.South :: cs, ?_, by simp [hmap, cmdToken, cmdLetter]⟩
      simp [parseLoop, hcs, netDX, netDY, cmdDX, cmdDY]
      ring_nf
    · obtain ⟨cs, hcs, hmap⟩ := ih (acc ++ [RobotCommand.West]) (dx - 1) dy hrest
      refine ⟨RobotCommand.West :: cs, ?_, by simp [hmap, cmdToken, cmdLetter]⟩
      simp [parseLoop, hcs, netDX, netDY, cmdDX, cmdDY]
      ring_nf

/-- C5 counterexample: `"N\tE"` is, per the claim's grammar, a valid
command string — its whitespace-separated tokens are exactly `N` and `E`
— yet the parser (which splits on the space character only) rejects it
whole, because `N\tE` survives as a single unrecognised token. -/
theorem c5_whitespace_separated_counterexample :
    specTokens "N\tE".data = [['N'], ['E']] ∧
    (∀ t ∈ specTokens "N\tE".data,
      t = ['N'] ∨ t = ['E'] ∨ t = ['S'] ∨ t = ['W']) ∧
    NewTask "t1" "N\tE".data = .error "invalid command: N\tE" :=
  ⟨by decide, by decide, by rfl⟩

/-- C5 (amended): for every command string whose space-split parts, after
discarding all-whitespace parts, are each exactly one of the uppercase
letters N, E, S, W (at least one part), parsing produces a task whose
command list corresponds one-to-one with those parts (same length, i-th
command rendering to the i-th part), whose state is `Pending`, and whose
precomputed (DeltaX, DeltaY) is the sum of the per-command unit vectors
N:+Y, S:-Y, E:+X, W:-X. -/
theorem c5_parse_valid_space_separated (fresh : String) (raw : List Char)
    (hne : removeEmptyStrings (splitOnSpaceChars raw) ≠ [])
    (hvalid : ∀ p ∈ removeEmptyStrings (splitOnSpaceChars raw),
      p = ['N'] ∨ p = ['E'] ∨ p = ['S'] ∨ p = ['W']) :
    ∃ t, NewTask fresh raw = .ok t ∧
      t.state = .Pending ∧
      t.commands.map cmdToken = removeEmptyStrings (splitOnSpaceChars raw) ∧
      t.commands.length = (removeEmptyStrings (splitOnSpaceChars raw)).length ∧
      t.deltaX = netDX t.commands ∧ t.deltaY = netDY t.commands := by
  obtain ⟨cs, hcs, hmap⟩ := parseLoop_ok (removeEmptyStrings (splitOnSpaceChars raw)) [] 0 0 hvalid
  have hpc : parseCommands raw = .ok (cs, netDX cs, netDY cs) := by
    unfold parseCommands
    rw [if_neg (by simpa [List.length_eq_zero] using hne)]
    simpa using hcs
  refine ⟨{ id := fresh, commands := cs, state := .Pending,
            delayBetweenCommands := defaultDelayBetweenCommands, sequenceNum := 0,
            error := "", deltaX := netDX cs, deltaY := netDY cs },
          by simp [NewTask, hpc], rfl, hmap, ?_, rfl, rfl⟩
  rw [← hmap, List.length_map]

theorem c5_parse_valid_space_separated_witness :
    removeEmptyStrings (splitOnSpaceChars "  N   E S W ".data) ≠ [] ∧
    ∃ t, NewTask "t1" "  N   E S W ".data = .ok t ∧
      t.state = .Pending ∧
      t.commands.map cmdToken = removeEmptyStrings (splitOnSpaceChars "  N   E S W ".data) ∧
      t.commands.length = (removeEmptyStrings (splitOnSpaceChars "  N   E S W ".data)).length ∧
      t.deltaX = netDX t.commands ∧ t.deltaY = netDY t.commands :=
  ⟨by decide, c5_parse_valid_space_separated "t1" "  N   E S W ".data (by decide) (by decide)⟩

end RobotChallenge

namespace RobotChallenge

/-- Joining chunks back with single spaces: the left inverse of
`splitOnSpaceChars`. -/
def joinWithSpace : List (List Char) → List Char
  | [] => []
  | [t] => t
  | t :: ts => t ++ ' ' :: joinWithSpace ts

/-- The function `strings.Split` never returns an empty slice. -/
theorem splitOnSpaceChars_ne_nil (cs : List Char) : splitOnSpaceChars cs ≠ [] := by
  cases cs with
  | nil => simp [splitOnSpaceChars]
  | cons c rest =>
    rcases h : splitOnSpaceChars rest with _ | ⟨t, ts⟩
    · simp [splitOnSpaceChars, h]
    · simp only [splitOnSpaceChars, h]
      split <;> simp

/-- Splitting on spaces and rejoining with spaces restores the string. -/
theorem joinWithSpace_splitOnSpaceChars (cs : List Char) :
    joinWithSpace (splitOnSpaceChars cs) = cs := by
  induction cs with
  | nil => rfl
  | cons c rest ih =>
    rcases h : splitOnSpaceChars rest with _ | ⟨t, ts⟩
    · exact absurd h (splitOnSpaceChars_ne_nil rest)
    · rw [h] at ih
      simp only [splitOnSpaceChars, h]
      by_cases hc : c = ' '
      · subst hc
        rw [if_pos rfl]
        show [] ++ ' ' :: joinWithSpace (t :: ts) = ' ' :: rest
        rw [List.nil_append, ih]
      · rw [if_neg hc]
        cases ts with
        | nil =>
          show c :: t = c :: rest
          rw [show joinWithSpace [t] = t from rfl] at ih
          rw [ih]
        | cons t2 ts2 =>
          show (c :: t) ++ ' ' :: joinWithSpace (t2 :: ts2) = c :: rest
          rw [List.cons_append,
            show t ++ ' ' :: joinWithSpace (t2 :: ts2) = joinWithSpace (t :: t2 :: ts2) from rfl,
            ih]

/-- Scanning past an explicit space splits the token scan in two. -/
theorem specTokensAux_append_space (acc xs ys : List Char) :
    specTokensAux acc (xs ++ ' ' :: ys) = specTokensAux acc xs ++ specTokensAux [] ys := by
  induction xs generalizing acc with
  | nil =>
    by_cases h : acc = [] <;>
      simp [specTokensAux, h, isSpaceChar]
  | cons c xs ih =>
    by_cases hc : isSpaceChar c
    · by_cases h : acc = [] <;> simp [specTokensAux, hc, h, ih]
    · simp [specTokensAux, hc, ih]

/-- The whitespace tokens of a space-joined list of chunks are the
concatenation of each chunk's whitespace tokens. -/
theorem specTokens_joinWithSpace (parts : List (List Char)) :
    specTokens (joinWithSpace parts) = (parts.map specTokens).flatten := by
  induction parts with
  | nil => rfl
  | cons p ps ih =>
    cases ps with
    | nil => simp [joinWithSpace]
    | cons q ps2 =>
      show specTokens (p ++ ' ' :: joinWithSpace (q :: ps2)) = _
      rw [specTokens, specTokensAux_append_space]
      simp only [List.map_cons, List.flatten_cons]
      rw [← specTokens, ← specTokens, ih]
      simp [List.flatten_cons]

/-- An all-whitespace string has no whitespace tokens. -/
theorem specTokens_eq_nil_of_all_space (s : List Char) (h : ∀ c ∈ s, isSpaceChar c) :
    specTokens s = [] := by
  induction s with
  | nil => rfl
  | cons c rest ih =>
    have hc := h c (List.mem_cons_self c rest)
    rw [specTokens, specTokensAux, if_pos hc, if_pos rfl]
    exact ih fun d hd => h d (List.mem_cons_of_mem c hd)

/-- Trimming trailing whitespace yields the empty string exactly on
all-whitespace input. -/
theorem trimRightWS_eq_nil_iff (s : List Char) :
    trimRightWS s = [] ↔ ∀ c ∈ s, isSpaceChar c := by
  induction s with
  | nil => simp [trimRightWS]
  | cons c rest ih =>
    simp only [trimRightWS]
    rcases h : trimRightWS rest with _ | ⟨r, rs⟩
    · rw [h] at ih
      by_cases hc : isSpaceChar c
      · simp only [if_pos hc, List.mem_cons]
        constructor
        · intro _ d hd
          rcases hd with rfl | hd
          · exact hc
          · exact ih.mp rfl d hd
        · intro _
          trivial
      · simp only [if_neg hc, List.mem_cons]
        constructor
        · intro habs
          exact absurd habs (by simp)
        · intro hall
          exact absurd (hall c (Or.inl rfl)) hc
    · rw [h] at ih
      constructor
      · intro habs
        exact absurd habs (by simp)
      · intro hall
        have : ∀ d ∈ rest, isSpaceChar d := fun d hd => hall d (List.mem_cons_of_mem c hd)
        exact absurd (ih.mpr this) (by simp)

/-- Trimming both ends yields the empty string exactly on all-whitespace input. -/
theorem trimSpace_eq_nil_iff (s : List Char) :
    trimSpace s = [] ↔ ∀ c ∈ s, isSpaceChar c := by
  rw [trimSpace, trimRightWS_eq_nil_iff]
  constructor
  · intro h c hc
    by_cases hsp : isSpaceChar c
    · exact hsp
    · rcases (List.mem_append.mp
        (by rw [List.takeWhile_append_dropWhile] ; exact hc :
          c ∈ s.takeWhile isSpaceChar ++ s.dropWhile isSpaceChar)) with hmem | hmem
      · exact List.mem_takeWhile_imp hmem
      · exact h c hmem
  · intro h c hc
    exact h c ((List.dropWhile_sublist isSpaceChar).mem hc)

/-- If the parsing loop succeeds, every part it consumed was one of the
four single-letter tokens. -/
theorem parseLoop_ok_parts (parts : List (List Char)) (acc : List RobotCommand)
    (dx dy : Int) (res : List RobotCommand × Int × Int)
    (h : parseLoop parts acc dx dy = .ok res) :
    ∀ p ∈ parts, p = ['N'] ∨ p = ['E'] ∨ p = ['S'] ∨ p = ['W'] := by
  induction parts generalizing acc dx dy with
  | nil => simp
  | cons p rest ih =>
    intro q hq
    simp only [parseLoop] at h
    split_ifs at h with h1 h2 h3 h4
    · rcases List.mem_cons.mp hq with rfl | hq2
      · exact Or.inl h1
      · exact ih _ _ _ h q hq2
    · rcases List.mem_cons.mp hq with rfl | hq2
      · exact Or.inr (Or.inr (Or.inr h2))
      · exact ih _ _ _ h q hq2
    · rcases List.mem_cons.mp hq with rfl | hq2
      · exact Or.inr (Or.inl h3)
      · exact ih _ _ _ h q hq2
    · rcases List.mem_cons.mp hq with rfl | hq2
      · exact Or.inr (Or.inr (Or.inl h4))
      · exact ih _ _ _ h q hq2

end RobotChallenge

namespace RobotChallenge

/-- Every character of every chunk produced by the space-split occurs in
the original string. -/
theorem mem_of_mem_splitOnSpaceChars (cs : List Char) (p : List Char)
    (hp : p ∈ splitOnSpaceChars cs) (c : Char) (hc : c ∈ p) : c ∈ cs := by
  induction cs generalizing p with
  | nil =>
    simp [splitOnSpaceChars] at hp
    subst hp
    simp at hc
  | cons a rest ih =>
    rcases h : splitOnSpaceChars rest with _ | ⟨t, ts⟩
    · exact absurd h (splitOnSpaceChars_ne_nil rest)
    · simp only [splitOnSpaceChars, h] at hp
      by_cases ha : a = ' '
      · rw [if_pos ha] at hp
        rcases List.mem_cons.mp hp with rfl | hp2
        · simp at hc
        · exact List.mem_cons_of_mem a (ih p (by rw [h]; exact hp2) hc)
      · rw [if_neg ha] at hp
        rcases List.mem_cons.mp hp with rfl | hp2
        · rcases List.mem_cons.mp hc with rfl | hc2
          · exact List.mem_cons_self _ _
          · exact List.mem_cons_of_mem a
              (ih t (by rw [h]; exact List.mem_cons_self t ts) hc2)
        · exact List.mem_cons_of_mem a (ih p (by rw [h]; exact List.mem_cons.mpr (Or.inr hp2)) hc)

/-- A single non-whitespace character is its own whitespace token. -/
theorem specTokens_singleton (c : Char) (h : ¬ isSpaceChar c) : specTokens [c] = [[c]] := by
  simp [specTokens, specTokensAux, h]

/-- C6: parsing fails with the empty-sequence error on every empty or
all-whitespace command string (zero tokens remain after discarding
empties); and for every input one of whose whitespace-separated tokens is
not exactly one of the uppercase letters N, E, S, W — lowercase and
unknown tokens included — the whole sequence is rejected with an error. -/
theorem c6_empty_and_invalid_rejected (raw : List Char) :
    ((∀ c ∈ raw, isSpaceChar c) → parseCommands raw = .error "no commands provided") ∧
    (∀ t ∈ specTokens raw, t ≠ ['N'] → t ≠ ['E'] → t ≠ ['S'] → t ≠ ['W'] →
      ∃ e, parseCommands raw = .error e) := by
  constructor
  · intro hall
    have hempty : removeEmptyStrings (splitOnSpaceChars raw) = [] := by
      rw [removeEmptyStrings, List.filter_eq_nil_iff]
      intro p hp
      simp only [bne_iff_ne, ne_eq, not_not]
      exact (trimSpace_eq_nil_iff p).mpr
        (fun c hc => hall c (mem_of_mem_splitOnSpaceChars raw p hp c hc))
    simp [parseCommands, hempty]
  · intro t ht h1 h2 h3 h4
    by_cases hlen : (removeEmptyStrings (splitOnSpaceChars raw)).length = 0
    · exact ⟨"no commands provided", by simp [parseCommands, hlen]⟩
    · rcases hloop : parseLoop (removeEmptyStrings (splitOnSpaceChars raw)) [] 0 0 with e | res
      · exact ⟨e, by simp [parseCommands, hlen, hloop]⟩
      · exfalso
        have hparts := parseLoop_ok_parts _ _ _ _ _ hloop
        have hraw : specTokens raw = ((splitOnSpaceChars raw).map specTokens).flatten := by
          conv_lhs => rw [← joinWithSpace_splitOnSpaceChars raw]
          exact specTokens_joinWithSpace _
        rw [hraw] at ht
        rcases List.mem_flatten.mp ht with ⟨l, hl, htl⟩
        rcases List.mem_map.mp hl with ⟨p, hp, rfl⟩
        by_cases hpt : trimSpace p = []
        · rw [specTokens_eq_nil_of_all_space p ((trimSpace_eq_nil_iff p).mp hpt)] at htl
          simp at htl
        · have hpmem : p ∈ removeEmptyStrings (splitOnSpaceChars raw) :=
            List.mem_filter.mpr ⟨hp, by simpa [bne_iff_ne] using hpt⟩
          rcases hparts p hpmem with rfl | rfl | rfl | rfl
          · rw [specTokens_singleton _ (by decide)] at htl
            simp at htl
            exact h1 htl
          · rw [specTokens_singleton _ (by decide)] at htl
            simp at htl
            exact h2 htl
          · rw [specTokens_singleton _ (by decide)] at htl
            simp at htl
            exact h3 htl
          · rw [specTokens_singleton _ (by decide)] at htl
            simp at htl
            exact h4 htl

theorem c6_empty_and_invalid_rejected_witness :
    (parseCommands "".data = .error "no commands provided") ∧
    (parseCommands " \t ".data = .error "no commands provided") ∧
    (∃ e, parseCommands "N x E".data = .error e) ∧
    (∃ e, parseCommands "n e s w".data = .error e) :=
  ⟨(c6_empty_and_invalid_rejected "".data).1 (by decide),
   (c6_empty_and_invalid_rejected " \t ".data).1 (by decide),
   (c6_empty_and_invalid_rejected "N x E".data).2 ['x'] (by decide)
     (by decide) (by decide) (by decide) (by decide),
   (c6_empty_and_invalid_rejected "n e s w".data).2 ['n'] (by decide)
     (by decide) (by decide) (by decide) (by decide)⟩

end RobotChallenge

namespace RobotChallenge

/-- Trimming on the right keeps a leading character whenever the trimmed tail is
nonempty. -/
theorem trimRightSpaces_cons_of_ne_nil (x : Char) (xs : List Char)
    (h : trimRightSpaces xs ≠ []) :
    trimRightSpaces (x :: xs) = x :: trimRightSpaces xs := by
  rcases hx : trimRightSpaces xs with _ | ⟨r, rs⟩
  · exact absurd hx h
  · simp [trimRightSpaces, hx]

/-- Joining nonempty chunks never yields the empty string when the head
chunk is nonempty. -/
theorem joinWithSpace_cons_ne_nil (t : List Char) (ts : List (List Char)) (h : t ≠ []) :
    joinWithSpace (t :: ts) ≠ [] := by
  cases ts with
  | nil => exact h
  | cons t2 ts2 =>
    show t ++ ' ' :: joinWithSpace (t2 :: ts2) ≠ []
    simp

/-- The rendered form of a nonempty command list is its letter tokens
joined by single spaces. -/
theorem robotCommandsString_eq_join (cs : List RobotCommand) (h : cs ≠ []) :
    RobotCommandsString cs = joinWithSpace (cs.map cmdToken) := by
  induction cs with
  | nil => exact absurd rfl h
  | cons c rest ih =>
    cases rest with
    | nil => cases c <;> rfl
    | cons c2 rest2 =>
      have ihne := ih (by simp)
      have hjoin_ne : trimRightSpaces ((c2 :: rest2).flatMap (fun d => [cmdLetter d, ' '])) ≠ [] := by
        rw [show trimRightSpaces ((c2 :: rest2).flatMap (fun d => [cmdLetter d, ' '])) =
              RobotCommandsString (c2 :: rest2) from rfl, ihne]
        exact joinWithSpace_cons_ne_nil _ _ (by simp [cmdToken])
      show trimRightSpaces
          (cmdLetter c :: ' ' :: (c2 :: rest2).flatMap (fun d => [cmdLetter d, ' '])) = _
      rw [trimRightSpaces_cons_of_ne_nil (cmdLetter c) _
            (by rw [trimRightSpaces_cons_of_ne_nil ' ' _ hjoin_ne]; simp),
          trimRightSpaces_cons_of_ne_nil ' ' _ hjoin_ne,
          show trimRightSpaces ((c2 :: rest2).flatMap (fun d => [cmdLetter d, ' '])) =
              RobotCommandsString (c2 :: rest2) from rfl, ihne]
      rfl

/-- Splitting a string of the form `letter, space, tail` peels off the
one-letter chunk. -/
theorem splitOnSpaceChars_letter_space (l : Char) (hl : ¬ l = ' ') (X : List Char) :
    splitOnSpaceChars (l :: ' ' :: X) = [l] :: splitOnSpaceChars X := by
  rcases h : splitOnSpaceChars X with _ | ⟨t, ts⟩
  · exact absurd h (splitOnSpaceChars_ne_nil X)
  · simp only [splitOnSpaceChars, h]
    simp [hl]

/-- Splitting the space-joined letter tokens recovers exactly those
tokens. -/
theorem split_join_cmdTokens (cs : List RobotCommand) (h : cs ≠ []) :
    splitOnSpaceChars (joinWithSpace (cs.map cmdToken)) = cs.map cmdToken := by
  induction cs with
  | nil => exact absurd rfl h
  | cons c rest ih =>
    cases rest with
    | nil => cases c <;> rfl
    | cons c2 rest2 =>
      have ihok := ih (by simp)
      show splitOnSpaceChars (cmdToken c ++ ' ' :: joinWithSpace ((c2 :: rest2).map cmdToken)) = _
      rw [show cmdToken c ++ ' ' :: joinWithSpace ((c2 :: rest2).map cmdToken) =
            cmdLetter c :: ' ' :: joinWithSpace ((c2 :: rest2).map cmdToken) from rfl,
          splitOnSpaceChars_letter_space (cmdLetter c) (by cases c <;> decide) _, ihok]
      rfl

/-- C10: rendering a non-empty command list with `RobotCommands.String`
(letters joined by single spaces) and re-parsing it with `parseCommands`
succeeds and yields exactly the original commands together with their net
displacement. -/
theorem c10_render_parse_roundtrip (cs : List RobotCommand) (h : cs ≠ []) :
    parseCommands (RobotCommandsString cs) = .ok (cs, netDX cs, netDY cs) := by
  rw [robotCommandsString_eq_join cs h]
  have hsplit := split_join_cmdTokens cs h
  have hkeep : removeEmptyStrings (cs.map cmdToken) = cs.map cmdToken := by
    rw [removeEmptyStrings, List.filter_eq_self]
    intro p hp
    rcases List.mem_map.mp hp with ⟨d, _, rfl⟩
    cases d <;> decide
  have hvalid : ∀ p ∈ cs.map cmdToken, p = ['N'] ∨ p = ['E'] ∨ p = ['S'] ∨ p = ['W'] := by
    intro p hp
    rcases List.mem_map.mp hp with ⟨d, _, rfl⟩
    cases d <;> simp [cmdToken, cmdLetter]
  obtain ⟨cs2, hloop, hmap⟩ := parseLoop_ok (cs.map cmdToken) [] 0 0 hvalid
  have hcs2 : cs2 = cs := by
    have hinj : Function.Injective cmdToken := by
      intro a b hab
      cases a <;> cases b <;> simp_all [cmdToken, cmdLetter]
    exact List.map_injective_iff.mpr hinj (by rw [hmap])
  rw [parseCommands]
  simp only [hsplit, hkeep]
  rw [if_neg (by simpa using h)]
  rw [hloop, hcs2]
  simp

theorem c10_render_parse_roundtrip_witness :
    parseCommands (RobotCommandsString [.North, .East, .South, .West]) =
      .ok ([.North, .East, .South, .West], 0, 0) := by
  have := c10_render_parse_roundtrip [.North, .East, .South, .West] (by simp)
  simpa [netDX, netDY, cmdDX, cmdDY] using this

end RobotChallenge

namespace RobotChallenge

/-- The operation `UpdateTaskState` never moves the robot. -/
theorem UpdateTaskState_robotState (st : ServiceState) (id : String) (s : TaskState) :
    (UpdateTaskState st id s).robotState = st.robotState := by
  unfold UpdateTaskState
  cases tasksLookup st.tasks id <;> rfl

/-- The operation `UpdateTaskError` never moves the robot. -/
theorem UpdateTaskError_robotState (st : ServiceState) (id : String) (msg : String) :
    (UpdateTaskError st id msg).robotState = st.robotState := by
  unfold UpdateTaskError
  cases tasksLookup st.tasks id <;> rfl

/-- The operation `CancelTask` never moves the robot. -/
theorem CancelTask_robotState (st : ServiceState) (id : String) :
    (CancelTask st id).1.robotState = st.robotState := by
  rcases h : tasksLookup st.tasks id with _ | task
  · simp [CancelTask, h]
  · cases hs : task.state <;> simp [CancelTask, h, hs]

/-- After `UpdateTaskState`, the task is found with the new state. -/
theorem UpdateTaskState_lookup (st : ServiceState) (id : String) (s : TaskState)
    (task : RobotTask) (h : tasksLookup st.tasks id = some task) :
    tasksLookup (UpdateTaskState st id s).tasks id = some { task with state := s } := by
  unfold UpdateTaskState
  rw [h]
  exact tasksLookup_update_self _ _ _

/-- After `UpdateTaskError`, the task is found with the new error. -/
theorem UpdateTaskError_lookup (st : ServiceState) (id : String) (msg : String)
    (task : RobotTask) (h : tasksLookup st.tasks id = some task) :
    tasksLookup (UpdateTaskError st id msg).tasks id = some { task with error := msg } := by
  unfold UpdateTaskError
  rw [h]
  exact tasksLookup_update_self _ _ _

/-- One command succeeds, moving by exactly its unit vector, whenever the
destination of that single step lies inside the grid. -/
theorem executeRobotCommand_ok_of_inBounds (r : RobotState) (cmd : RobotCommand)
    (h1 : 0 ≤ (r.x : Int) + cmdDX cmd) (h2 : (r.x : Int) + cmdDX cmd ≤ (warehouseSize : Int))
    (h3 : 0 ≤ (r.y : Int) + cmdDY cmd) (h4 : (r.y : Int) + cmdDY cmd ≤ (warehouseSize : Int)) :
    ∃ r1, ExecuteRobotCommand r cmd = .ok r1 ∧ (r1.x : Int) = (r.x : Int) + cmdDX cmd ∧
      (r1.y : Int) = (r.y : Int) + cmdDY cmd := by
  cases cmd
  case North =>
    simp only [cmdDX, cmdDY] at *
    refine ⟨⟨r.x, r.y + 1⟩, ?_, ?_, ?_⟩
    · simp only [ExecuteRobotCommand, warehouseSize] at *
      rw [if_neg (by omega)]
    · show (r.x : Int) = (r.x : Int) + 0
      omega
    · show ((r.y + 1 : Nat) : Int) = (r.y : Int) + 1
      omega
  case South =>
    simp only [cmdDX, cmdDY] at *
    refine ⟨⟨r.x, r.y - 1⟩, ?_, ?_, ?_⟩
    · simp only [ExecuteRobotCommand, warehouseSize] at *
      rw [if_neg (by omega)]
    · show (r.x : Int) = (r.x : Int) + 0
      omega
    · show ((r.y - 1 : Nat) : Int) = (r.y : Int) + -1
      omega
  case East =>
    simp only [cmdDX, cmdDY] at *
    refine ⟨⟨r.x + 1, r.y⟩, ?_, ?_, ?_⟩
    · simp only [ExecuteRobotCommand, warehouseSize] at *
      rw [if_neg (by omega)]
    · show ((r.x + 1 : Nat) : Int) = (r.x : Int) + 1
      omega
    · show (r.y : Int) = (r.y : Int) + 0
      omega
  case West =>
    simp only [cmdDX, cmdDY] at *
    refine ⟨⟨r.x - 1, r.y⟩, ?_, ?_, ?_⟩
    · simp only [ExecuteRobotCommand, warehouseSize] at *
      rw [if_neg (by omega)]
    · show ((r.x - 1 : Nat) : Int) = (r.x : Int) + -1
      omega
    · show (r.y : Int) = (r.y : Int) + 0
      omega

/-- When every prefix of the command list keeps the position inside the
`0..warehouseSize` grid, stepwise execution succeeds and lands on the
start plus the net displacement. -/
theorem applyCommands_ok_of_path_inBounds (cs : List RobotCommand) (r : RobotState)
    (hpath : ∀ n ≤ cs.length,
      0 ≤ (r.x : Int) + netDX (cs.take n) ∧
      (r.x : Int) + netDX (cs.take n) ≤ (warehouseSize : Int) ∧
      0 ≤ (r.y : Int) + netDY (cs.take n) ∧
      (r.y : Int) + netDY (cs.take n) ≤ (warehouseSize : Int)) :
    ∃ r', applyCommands r cs = .ok r' ∧
      (r'.x : Int) = (r.x : Int) + netDX cs ∧ (r'.y : Int) = (r.y : Int) + netDY cs := by
  induction cs generalizing r with
  | nil => exact ⟨r, rfl, by simp [netDX], by simp [netDY]⟩
  | cons c rest ih =>
    have h1 := hpath 1 (by simp)
    simp only [List.take_succ_cons, List.take_zero, netDX, netDY, List.map_cons,
      List.map_nil, List.sum_cons, List.sum_nil, add_zero] at h1
    obtain ⟨r1, hstep, hr1x, hr1y⟩ :=
      executeRobotCommand_ok_of_inBounds r c h1.1 h1.2.1 h1.2.2.1 h1.2.2.2
    have hpath1 : ∀ n ≤ rest.length,
        0 ≤ (r1.x : Int) + netDX (rest.take n) ∧
        (r1.x : Int) + netDX (rest.take n) ≤ (warehouseSize : Int) ∧
        0 ≤ (r1.y : Int) + netDY (rest.take n) ∧
        (r1.y : Int) + netDY (rest.take n) ≤ (warehouseSize : Int) := by
      intro n hn
      have := hpath (n + 1) (by simpa using hn)
      simp only [List.take_succ_cons, netDX, netDY, List.map_cons, List.sum_cons] at this
      rw [hr1x, hr1y]
      simp only [netDX, netDY]
      refine ⟨by linarith [this.1], by linarith [this.2.1],
        by linarith [this.2.2.1], by linarith [this.2.2.2]⟩
    obtain ⟨r', hrun, hx, hy⟩ := ih r1 hpath1
    refine ⟨r', ?_, ?_, ?_⟩
    · simp only [applyCommands, hstep]
      exact hrun
    · rw [hx, hr1x]
      simp only [netDX, List.map_cons, List.sum_cons]
      ring
    · rw [hy, hr1y]
      simp only [netDY, List.map_cons, List.sum_cons]
      ring

end RobotChallenge

namespace RobotChallenge

/-- The check `IsTaskValid` depends only on the robot position. -/
theorem IsTaskValid_robot (st st2 : ServiceState) (task : RobotTask)
    (h : st2.robotState = st.robotState) : IsTaskValid st2 task = IsTaskValid st task := by
  simp only [IsTaskValid, GetRobotState, h]

/-- With no cancellation request, the loop runs all commands (stepwise
execution succeeding), marks the task `Completed` and leaves the robot at
the stepwise final position. -/
theorem execLoop_completes (cs : List RobotCommand) :
    ∀ (st : ServiceState) (taskID : String) (task : RobotTask) (i : Nat) (r' : RobotState),
    tasksLookup st.tasks taskID = some task → task.state = .InProgress →
    applyCommands st.robotState cs = .ok r' →
    ∃ st', execLoop st taskID (fun _ => false) cs i = (st', .ok ()) ∧
      st'.robotState = r' ∧
      tasksLookup st'.tasks taskID = some { task with state := .Completed } := by
  induction cs with
  | nil =>
    intro st taskID task i r' hlookup hstate hrun
    have hr : st.robotState = r' := by simpa [applyCommands] using hrun
    refine ⟨UpdateTaskState st taskID .Completed, rfl, ?_, ?_⟩
    · rw [UpdateTaskState_robotState]
      exact hr
    · exact UpdateTaskState_lookup st taskID .Completed task hlookup
  | cons c rest ih =>
    intro st taskID task i r' hlookup hstate hrun
    rcases hstep : ExecuteRobotCommand st.robotState c with e | r1
    · rw [applyCommands.eq_def] at hrun
      simp only [hstep] at hrun
      exact absurd hrun (by simp)
    · have hrun' : applyCommands r1 rest = .ok r' := by
        rw [applyCommands.eq_def] at hrun
        simpa only [hstep] using hrun
      obtain ⟨st', hloop, hrob, hlook⟩ :=
        ih (SetRobotState st r1) taskID task (i + 1) r' hlookup hstate hrun'
      refine ⟨st', ?_, hrob, hlook⟩
      simp only [execLoop, Bool.false_eq_true, if_false, GetTaskState, hlookup, hstate,
        GetRobotState, hstep]
      simpa using hloop

end RobotChallenge

namespace RobotChallenge

/-- C1 (amended): with no concurrent cancellation, a `Pending` task whose
every intermediate position (start plus prefix net displacement) stays
within the `0..warehouseSize` grid and whose final destination moreover
stays strictly below `warehouseSize` on both axes (the up-front check
rejects destination coordinates equal to `warehouseSize`), runs to
`Completed` and leaves the robot at the start plus the task's net
displacement. -/
theorem c1_in_bounds_task_completes (st : ServiceState) (taskID : String) (task : RobotTask)
    (hlookup : tasksLookup st.tasks taskID = some task)
    (hid : task.id = taskID)
    (hpending : task.state = .Pending)
    (hdx : task.deltaX = netDX task.commands)
    (hdy : task.deltaY = netDY task.commands)
    (hpath : ∀ n ≤ task.commands.length,
      0 ≤ (st.robotState.x : Int) + netDX (task.commands.take n) ∧
      (st.robotState.x : Int) + netDX (task.commands.take n) ≤ (warehouseSize : Int) ∧
      0 ≤ (st.robotState.y : Int) + netDY (task.commands.take n) ∧
      (st.robotState.y : Int) + netDY (task.commands.take n) ≤ (warehouseSize : Int))
    (hfx : (st.robotState.x : Int) + netDX task.commands < (warehouseSize : Int))
    (hfy : (st.robotState.y : Int) + netDY task.commands < (warehouseSize : Int)) :
    ∃ st', ExecuteTask st taskID (fun _ => false) = (st', .ok ()) ∧
      (st'.robotState.x : Int) = (st.robotState.x : Int) + netDX task.commands ∧
      (st'.robotState.y : Int) = (st.robotState.y : Int) + netDY task.commands ∧
      tasksLookup st'.tasks taskID = some { task with state := .Completed } := by
  have hfinal := hpath task.commands.length le_rfl
  rw [List.take_length] at hfinal
  have hvalid : IsTaskValid (UpdateTaskState st taskID .InProgress) task = true := by
    rw [IsTaskValid_robot st (UpdateTaskState st taskID .InProgress) task (UpdateTaskState_robotState st taskID .InProgress)]
    simp only [IsTaskValid, GetRobotState]
    rw [if_neg]
    push_neg
    rw [hdx, hdy]
    exact ⟨hfinal.1, hfx, hfinal.2.2.1, hfy⟩
  obtain ⟨r', hrun, hx', hy'⟩ := applyCommands_ok_of_path_inBounds task.commands st.robotState hpath
  have hlookup1 : tasksLookup (UpdateTaskState st taskID .InProgress).tasks taskID =
      some { task with state := .InProgress } :=
    UpdateTaskState_lookup st taskID .InProgress task hlookup
  obtain ⟨st', hloop, hrob, hlook⟩ :=
    execLoop_completes task.commands (UpdateTaskState st taskID .InProgress) taskID
      { task with state := .InProgress } 0 r' hlookup1 rfl
      (by rw [UpdateTaskState_robotState]; exact hrun)
  refine ⟨st', ?_, ?_, ?_, hlook⟩
  · show ExecuteTask st taskID (fun _ => false) = (st', Except.ok ())
    rw [ExecuteTask.eq_def]
    simp only [hlookup, hpending, hid]
    rw [if_neg (by simp)]
    simp only [hvalid]
    rw [if_neg (by simp)]
    exact hloop
  · rw [hrob]
    exact hx'
  · rw [hrob]
    exact hy'

end RobotChallenge

namespace RobotChallenge

/-- The task "S N": net displacement (0,0), but its first step leaves the
grid from the origin. -/
def southNorthTask : RobotTask :=
  { id := "t1", commands := [.South, .North], state := .Pending,
    delayBetweenCommands := defaultDelayBetweenCommands, sequenceNum := 1,
    error := "", deltaX := 0, deltaY := 0 }

/-- The service state holding `southNorthTask` with the robot at the
origin. -/
def southNorthState : ServiceState :=
  { robotState := ⟨0, 0⟩, tasks := [("t1", southNorthTask)], curTaskCount := 1 }

/-- C1 counterexample: the task "S N" submitted at (0,0) has net
displacement (0,0), so start plus net displacement lies within
[0,10]×[0,10] — the claim's hypothesis holds — yet executing the task
(no cancellation) ends `Aborted`, not `Completed`: the first step S
leaves the grid, which the net-displacement check cannot see. -/
theorem c1_net_displacement_counterexample :
    (0 ≤ (southNorthState.robotState.x : Int) + southNorthTask.deltaX ∧
     (southNorthState.robotState.x : Int) + southNorthTask.deltaX ≤ (warehouseSize : Int) ∧
     0 ≤ (southNorthState.robotState.y : Int) + southNorthTask.deltaY ∧
     (southNorthState.robotState.y : Int) + southNorthTask.deltaY ≤ (warehouseSize : Int)) ∧
    southNorthTask.deltaX = netDX southNorthTask.commands ∧
    southNorthTask.deltaY = netDY southNorthTask.commands ∧
    (tasksLookup (ExecuteTask southNorthState "t1" (fun _ => false)).1.tasks "t1").map
      RobotTask.state = some .Aborted ∧
    (ExecuteTask southNorthState "t1" (fun _ => false)).1.robotState = ⟨0, 0⟩ :=
  ⟨by decide, by decide, by decide, by rfl, by rfl⟩

/-- The task "N E" from the origin: all prefixes and the destination are
inside the grid. -/
def northEastTask : RobotTask :=
  { id := "t2", commands := [.North, .East], state := .Pending,
    delayBetweenCommands := defaultDelayBetweenCommands, sequenceNum := 1,
    error := "", deltaX := 1, deltaY := 1 }

/-- The service state holding `northEastTask` with the robot at the
origin. -/
def northEastState : ServiceState :=
  { robotState := ⟨0, 0⟩, tasks := [("t2", northEastTask)], curTaskCount := 1 }

theorem c1_in_bounds_task_completes_witness :
    ∃ st', ExecuteTask northEastState "t2" (fun _ => false) = (st', .ok ()) ∧
      (st'.robotState.x : Int) = (northEastState.robotState.x : Int) + netDX northEastTask.commands ∧
      (st'.robotState.y : Int) = (northEastState.robotState.y : Int) + netDY northEastTask.commands ∧
      tasksLookup st'.tasks "t2" = some { northEastTask with state := .Completed } :=
  c1_in_bounds_task_completes northEastState "t2" northEastTask (by rfl) (by rfl) (by rfl)
    (by decide) (by decide) (by decide) (by decide) (by decide)

end RobotChallenge

namespace RobotChallenge

/-- The cancellation error attached by the worker. -/
def cancellationMsg : String := "Task cancellation requested by user"

/-- If a concurrent cancellation request lands before the k-th re-read of
the task state (and not earlier), and the first k steps execute cleanly,
the loop stops right there: the task ends `Canceled` with the
cancellation error and the robot sits at the position after exactly the
first k commands. -/
theorem execLoop_cancels (k : Nat) :
    ∀ (cs : List RobotCommand) (st : ServiceState) (taskID : String) (task : RobotTask)
      (cancel : Nat → Bool) (i : Nat) (r' : RobotState),
    tasksLookup st.tasks taskID = some task → task.state = .InProgress →
    k < cs.length → cancel (i + k) = true → (∀ j < k, cancel (i + j) = false) →
    applyCommands st.robotState (cs.take k) = .ok r' →
    ∃ st', execLoop st taskID cancel cs i = (st', .ok ()) ∧ st'.robotState = r' ∧
      tasksLookup st'.tasks taskID =
        some { task with state := .Canceled, error := cancellationMsg } := by
  induction k with
  | zero =>
    intro cs st taskID task cancel i r' hlookup hstate hk hck _ hsteps
    cases cs with
    | nil => simp at hk
    | cons c rest =>
      have hci : cancel i = true := by simpa using hck
      have hr : st.robotState = r' := by simpa [applyCommands] using hsteps
      have hcancel : applyCancelRequest st taskID =
          { st with tasks :=
              tasksUpdate st.tasks taskID ({ task with state := TaskState.RequestCancellation }) } := by
        simp [applyCancelRequest, CancelTask, hlookup, hstate]
      rw [execLoop.eq_def]
      simp only [hci, if_true, GetTaskState, hcancel, tasksLookup_update_self]
      refine ⟨_, rfl, ?_, ?_⟩
      · rw [UpdateTaskState_robotState, UpdateTaskError_robotState]
        exact hr
      · have l1 : tasksLookup
            (tasksUpdate st.tasks taskID ({ task with state := TaskState.RequestCancellation }))
            taskID = some ({ task with state := TaskState.RequestCancellation }) :=
          tasksLookup_update_self _ _ _
        have l2 := UpdateTaskError_lookup
          ({ st with tasks :=
              tasksUpdate st.tasks taskID ({ task with state := TaskState.RequestCancellation }) })
          taskID cancellationMsg _ l1
        exact UpdateTaskState_lookup _ taskID .Canceled _ l2
  | succ k ih =>
    intro cs st taskID task cancel i r' hlookup hstate hk hck hbefore hsteps
    cases cs with
    | nil => simp at hk
    | cons c rest =>
      have hci : cancel i = false := by simpa using hbefore 0 (Nat.succ_pos k)
      rw [List.take_succ_cons] at hsteps
      rcases hstep : ExecuteRobotCommand st.robotState c with e | r1
      · rw [applyCommands.eq_def] at hsteps
        simp only [hstep] at hsteps
        exact absurd hsteps (by simp)
      · have hsteps' : applyCommands r1 (rest.take k) = .ok r' := by
          rw [applyCommands.eq_def] at hsteps
          simpa only [hstep] using hsteps
        have hck' : cancel (i + 1 + k) = true := by
          have heq : i + 1 + k = i + (k + 1) := by omega
          rw [heq]
          exact hck
        have hbefore' : ∀ j < k, cancel (i + 1 + j) = false := by
          intro j hj
          have heq : i + 1 + j = i + (j + 1) := by omega
          rw [heq]
          exact hbefore (j + 1) (by omega)
        obtain ⟨st', hloop, hrob, hlook⟩ := ih rest (SetRobotState st r1) taskID task cancel
          (i + 1) r' hlookup hstate (by simpa using hk) hck' hbefore' hsteps'
        refine ⟨st', ?_, hrob, hlook⟩
        rw [execLoop.eq_def]
        simp only [hci, Bool.false_eq_true, if_false, GetTaskState, hlookup, hstate,
          GetRobotState, hstep]
        simpa using hloop

end RobotChallenge

namespace RobotChallenge

/-- C8: the worker re-reads the task's state before each command (the
oracle `cancel i` says whether a concurrent cancellation request landed
before the i-th re-read).  Once it observes `RequestCancellation` — at
the first index k where the request has landed — it attaches the
cancellation error, sets the task to `Canceled`, and executes no further
command of the task: the final robot position is exactly the position
after the k commands executed strictly before the cancellation was
observed. -/
theorem c8_cooperative_cancellation (st : ServiceState) (taskID : String) (task : RobotTask)
    (cancel : Nat → Bool) (k : Nat) (r' : RobotState)
    (hlookup : tasksLookup st.tasks taskID = some task)
    (hid : task.id = taskID)
    (hpending : task.state = .Pending)
    (hvalid : IsTaskValid st task = true)
    (hk : k < task.commands.length)
    (hck : cancel k = true)
    (hbefore : ∀ j < k, cancel j = false)
    (hsteps : applyCommands st.robotState (task.commands.take k) = .ok r') :
    ∃ st', ExecuteTask st taskID cancel = (st', .ok ()) ∧
      st'.robotState = r' ∧
      tasksLookup st'.tasks taskID =
        some { task with state := .Canceled, error := cancellationMsg } := by
  have hvalid1 : IsTaskValid (UpdateTaskState st taskID .InProgress) task = true := by
    rw [IsTaskValid_robot st (UpdateTaskState st taskID .InProgress) task
      (UpdateTaskState_robotState st taskID .InProgress)]
    exact hvalid
  have hlookup1 : tasksLookup (UpdateTaskState st taskID .InProgress).tasks taskID =
      some { task with state := .InProgress } :=
    UpdateTaskState_lookup st taskID .InProgress task hlookup
  obtain ⟨st', hloop, hrob, hlook⟩ := execLoop_cancels k task.commands
    (UpdateTaskState st taskID .InProgress) taskID { task with state := .InProgress } cancel 0 r'
    hlookup1 rfl hk (by simpa using hck) (by simpa using hbefore)
    (by rw [UpdateTaskState_robotState]; exact hsteps)
  refine ⟨st', ?_, hrob, ?_⟩
  · rw [ExecuteTask.eq_def]
    simp only [hlookup, hpending, hid]
    rw [if_neg (by simp)]
    simp only [hvalid1]
    rw [if_neg (by simp)]
    exact hloop
  · exact hlook

/-- A three-North task from the origin. -/
def threeNorthTask : RobotTask :=
  { id := "t3", commands := [.North, .North, .North], state := .Pending,
    delayBetweenCommands := defaultDelayBetweenCommands, sequenceNum := 1,
    error := "", deltaX := 0, deltaY := 3 }

/-- The service state holding `threeNorthTask` with the robot at the
origin. -/
def threeNorthState : ServiceState :=
  { robotState := ⟨0, 0⟩, tasks := [("t3", threeNorthTask)], curTaskCount := 1 }

theorem c8_cooperative_cancellation_witness :
    ∃ st', ExecuteTask threeNorthState "t3" (fun j => decide (2 ≤ j)) = (st', .ok ()) ∧
      st'.robotState = ⟨0, 2⟩ ∧
      tasksLookup st'.tasks "t3" =
        some { threeNorthTask with state := .Canceled, error := cancellationMsg } :=
  c8_cooperative_cancellation threeNorthState "t3" threeNorthTask (fun j => decide (2 ≤ j))
    2 ⟨0, 2⟩ (by rfl) (by rfl) (by rfl) (by decide) (by decide) (by decide) (by decide) (by rfl)

end RobotChallenge

namespace RobotChallenge

/-- A service whose one-slot task-id queue is already at capacity. -/
def fullQueueService : Service :=
  { state := NewServiceState, queueCapacity := 1, queue := ["t0"] }

/-- The task that `NewTask "t1" "N"` creates, once `EnqueueTask` has
stamped it with sequence number 1. -/
def enqueuedNorthTask : RobotTask :=
  { id := "t1", commands := [.North], state := .Pending,
    delayBetweenCommands := defaultDelayBetweenCommands,
    sequenceNum := 1, error := "", deltaX := 0, deltaY := 1 }

/-- The registry state after the blocked enqueue of `enqueuedNorthTask`. -/
def blockedEnqueueState : ServiceState :=
  { robotState := ⟨0, 0⟩, tasks := [("t1", enqueuedNorthTask)], curTaskCount := 1 }

/-- C2 counterexample: with the bounded queue at capacity, `EnqueueTask`
on the valid command string "N" does not fail with a queue-full error —
the send on the full channel blocks — and by then the task has already
been registered in the task registry. -/
theorem c2_enqueue_blocks_counterexample :
    EnqueueTask fullQueueService "t1" "N".data = .blocked blockedEnqueueState ∧
    tasksLookup blockedEnqueueState.tasks "t1" = some enqueuedNorthTask :=
  ⟨by rfl, by rfl⟩

/-- C2 (amended): when the bounded task queue is at capacity,
`EnqueueTask` with a valid command string never returns a queue-full
error: it first registers the freshly created task — stamped with the
next sequence number — in the task registry and increments the
submission counter, and only then blocks on the queue send (while
holding the state lock). -/
theorem c2_enqueue_at_capacity_blocks (s : Service) (fresh : String) (commands : List Char)
    (task : RobotTask)
    (hparse : NewTask fresh commands = .ok task)
    (hfull : ¬ s.queue.length < s.queueCapacity) :
    ∃ st, EnqueueTask s fresh commands = .blocked st ∧
      tasksLookup st.tasks task.id =
        some ({ task with sequenceNum := s.state.curTaskCount + 1 }) ∧
      st.curTaskCount = s.state.curTaskCount + 1 := by
  refine ⟨{ s.state with curTaskCount := s.state.curTaskCount + 1, tasks := tasksUpdate s.state.tasks task.id ({ task with sequenceNum := s.state.curTaskCount + 1 }) }, ?_, ?_, rfl⟩
  · simp [EnqueueTask, hparse, hfull]
  · exact tasksLookup_update_self _ _ _

theorem c2_enqueue_at_capacity_blocks_witness :
    ∃ st, EnqueueTask fullQueueService "t1" "N".data = .blocked st ∧
      tasksLookup st.tasks "t1" =
        some ({ { enqueuedNorthTask with sequenceNum := 0 } with sequenceNum := 0 + 1 }) ∧
      st.curTaskCount = 0 + 1 :=
  c2_enqueue_at_capacity_blocks fullQueueService "t1" "N".data
    { enqueuedNorthTask with sequenceNum := 0 } (by rfl) (by decide)

end RobotChallenge
